import Mathlib

/-!
Shallow embedding of the dual-stream capture-and-mix engine of
`src/src/audio/capture.rs` (macOS writer thread inside `start_record`,
plus the lifecycle entry points `MacOSAudioCapture::new` / `stop_record`).

Samples are modelled as exact rationals (ℚ).  Every concrete sample value
appearing in the spec's scenarios (0.0, 0.5, 1.0) and every arithmetic
operation performed on them by the code (addition of values of this size,
multiplication by 0.5) is exact in IEEE-754 binary32, so the rational
model coincides with the f32 computation on all inputs the claims touch.
Non-finite f32 behaviour is modelled separately by the `F32` type below.
-/

namespace Summia

/-- One poll result of `sys_rx.try_recv()` in the writer loop:
`Ok(ProcMsg::SystemAudio(data))`, `Ok(ProcMsg::Stop)` / `Disconnected`
(both clear `running`), or `TryRecvError::Empty`. -/
inductive SysPoll where
  | chunk (data : List ℚ)
  | stop
  | empty
  deriving DecidableEq

/-- One poll result of `mic_rx.try_recv()` in the writer loop. -/
inductive MicPoll where
  | chunk (data : List ℚ)
  | stop
  | empty
  deriving DecidableEq

/-- One iteration's pair of poll results (the loop polls the system
channel once, then the microphone channel once). -/
abbrev Iter := SysPoll × MicPoll

/-- Stereo-to-mono normalization of a SystemAudio chunk
(capture.rs lines 236-239): `for chunk in data.chunks_exact(2)`,
push `(chunk[0] + chunk[1]) * 0.5`.  An odd trailing sample is dropped
by `chunks_exact`. -/
def normalizeSys : List ℚ → List ℚ
  | a :: b :: rest => (a + b) * (1/2) :: normalizeSys rest
  | _ => []

/-- The mixing formula of capture.rs line 263: `(sys + mic) * 0.5`. -/
def mixSample (a b : ℚ) : ℚ := (a + b) * (1/2)

/-- Rust `f32::clamp(-1.0, 1.0)` on a finite value. -/
def clampUnit (x : ℚ) : ℚ := max (-1) (min 1 x)

/-- Rust float-to-integer `as` conversion truncates toward zero. -/
def truncQ (x : ℚ) : ℤ := if 0 ≤ x then ⌊x⌋ else ⌈x⌉

/-- Quantization of a mixed sample, capture.rs line 264:
`(mixed.clamp(-1.0, 1.0) * 32767.0) as i16`. -/
def quantizeI16 (x : ℚ) : ℤ := truncQ (clampUnit x * 32767)

/-- Writer-thread state: the two sample queues, the samples passed to
`writer.write_sample` so far (pre-quantization mixed values, in order),
and the `running` flag. -/
structure MixState where
  sysBuf : List ℚ
  micBuf : List ℚ
  out : List ℚ
  running : Bool
  deriving DecidableEq

/-- Initial writer state (capture.rs lines 223-225). -/
def initState : MixState := ⟨[], [], [], true⟩

/-- Effect of the `sys_rx.try_recv()` match (capture.rs lines 231-245). -/
def pollSys (s : MixState) : SysPoll → MixState
  | .chunk d => { s with sysBuf := s.sysBuf ++ normalizeSys d }
  | .stop => { s with running := false }
  | .empty => s

/-- Effect of the `mic_rx.try_recv()` match (capture.rs lines 247-257);
the microphone is already mono and is appended as-is. -/
def pollMic (s : MixState) : MicPoll → MixState
  | .chunk d => { s with micBuf := s.micBuf ++ d }
  | .stop => { s with running := false }
  | .empty => s

/-- The mixing pass (capture.rs lines 260-268): with
`mix_len = min(len(sys_buffer), len(mic_buffer))`, write the mixed first
`mix_len` pairs and drain both queues by `mix_len`.  (`List.zipWith`
pairs exactly the first `mix_len` positions; when `mix_len = 0` the pass
appends nothing and drains nothing, matching the skipped `if` body.) -/
def mixPass (s : MixState) : MixState :=
  { s with
    out := s.out ++ List.zipWith mixSample s.sysBuf s.micBuf,
    sysBuf := s.sysBuf.drop (min s.sysBuf.length s.micBuf.length),
    micBuf := s.micBuf.drop (min s.sysBuf.length s.micBuf.length) }

/-- One iteration of the `while running` loop body: poll both channels,
then run the mixing pass.  (The sleep branches affect timing only.) -/
def step (s : MixState) (m : Iter) : MixState := mixPass (pollMic (pollSys s m.1) m.2)

/-- The `while running` loop over a sequence of iteration poll results;
once `running` is cleared the loop exits and later deliveries are not
processed. -/
def runLoop : MixState → List Iter → MixState
  | s, [] => s
  | s, m :: ms => if s.running then runLoop (step s m) ms else s

/-- The drain after the loop (capture.rs lines 278-286): for
`i in 0..max(len(sys_buffer), len(mic_buffer))` write
`((sys_buffer.get(i).unwrap_or(0.0)) + (mic_buffer.get(i).unwrap_or(0.0))) * 0.5`. -/
def drainPhase (s : MixState) : MixState :=
  { s with
    out := s.out ++ (List.range (max s.sysBuf.length s.micBuf.length)).map
      (fun i => mixSample (s.sysBuf.getD i 0) (s.micBuf.getD i 0)) }

/-- The i16 values handed to `writer.write_sample` in order. -/
def writtenSamples (s : MixState) : List ℤ := s.out.map quantizeI16

/-- The completion event type of capture.rs lines 35-38: it has exactly
one variant, `Finished`. -/
inductive Event where
  | Finished
  deriving DecidableEq

/-- Result of the whole writer thread. `written` are the attempted
`write_sample` values, `kept` the ones whose write succeeded (the code
discards each write's `Result` with `let _ =`, so nothing else depends
on the failure pattern), `finalizeCount` counts `writer.finalize()`
calls, and `event` is the message sent on the event channel. -/
structure WriterResult where
  written : List ℤ
  kept : List ℤ
  finalizeCount : ℕ
  event : Event
  deriving DecidableEq

/-- Writes that the sink accepted, given which write indices fail. -/
def sinkKept (fail : ℕ → Bool) (xs : List ℤ) : List ℤ :=
  (xs.enum.filter (fun p => ! fail p.1)).map Prod.snd

/-- The complete writer thread (capture.rs lines 220-290): run the
polling loop, then the drain, then `writer.finalize()` once and send
`Event::Finished` unconditionally — every `write_sample` and the
`finalize` result are discarded with `let _ =`, so the control flow
never depends on sink failures. -/
def runWriter (fail : ℕ → Bool) (ms : List Iter) : WriterResult :=
  let s := drainPhase (runLoop initState ms)
  { written := writtenSamples s
    kept := sinkKept fail (writtenSamples s)
    finalizeCount := 1
    event := .Finished }

/-- The mono samples contributed to `sys_buffer` by a poll result. -/
def sysChunkOf : SysPoll → List ℚ
  | .chunk d => normalizeSys d
  | _ => []

/-- The mono samples contributed to `mic_buffer` by a poll result. -/
def micChunkOf : MicPoll → List ℚ
  | .chunk d => d
  | _ => []

/-- Concatenation of all normalized SystemAudio samples in an iteration
sequence, in arrival order. -/
def sysStream : List Iter → List ℚ
  | [] => []
  | m :: ms => sysChunkOf m.1 ++ sysStream ms

/-- Concatenation of all Microphone samples in an iteration sequence, in
arrival order. -/
def micStream : List Iter → List ℚ
  | [] => []
  | m :: ms => micChunkOf m.2 ++ micStream ms

/-- `true` iff no iteration delivers a `Stop` (or disconnect) on either
channel. -/
def noStop (ms : List Iter) : Bool :=
  ms.all fun m =>
    (match m.1 with | .stop => false | _ => true) &&
    (match m.2 with | .stop => false | _ => true)

/-- Modelled from the spec: the general-N Channel Normalizer
(`mix_to_mono`, called from the Linux path at capture.rs line 376, but
its definition is missing from the sources).  Spec §4.1: "given an
interleaved sample buffer and a channel count N (N ≥ 1), produce a mono
sequence of length ⌊len/N⌋ where each output sample is the arithmetic
mean of the N samples in its frame.  N = 0 is an input-contract
violation — reject/no-op rather than divide by zero." -/
def mix_to_mono (data : List ℚ) (n : ℕ) : List ℚ :=
  if n = 0 then []
  else if data.length < n then []
  else ((data.take n).sum / n) :: mix_to_mono (data.drop n) n
termination_by data.length
decreasing_by
  simp only [List.length_drop]
  omega

/-- Lifecycle state of `MacOSAudioCapture`: whether `sc_stream` and
`writer_handle` are `Some`, and whether a WAV sink (`temp.wav` writer)
has been created. -/
structure CaptureState where
  scStream : Bool
  writerHandle : Bool
  sinkCreated : Bool
  deriving DecidableEq

/-- `MacOSAudioCapture::new()` (capture.rs lines 154-163): both options
start as `None`; no sink exists. -/
def newCapture : CaptureState := ⟨false, false, false⟩

/-- `start_record` (capture.rs lines 167-294) on the success path:
installs the stream, creates the WAV writer (`WavWriter::create`), and
spawns the writer thread. -/
def start_record (s : CaptureState) : CaptureState :=
  { s with scStream := true, writerHandle := true, sinkCreated := true }

/-- `stop_record` (capture.rs lines 296-317): `if let Some` takes the
stream and the handle when present, waits, and returns `Ok(())`
unconditionally — there is no error path, no lifecycle check, and no
sink creation. -/
def stop_record (s : CaptureState) : CaptureState × Except String Unit :=
  ({ s with scStream := false, writerHandle := false }, Except.ok ())

/-- IEEE-754 binary32 values as relevant to the quantization path:
NaN, signed infinities, and finite values (whose arithmetic on this
path is exact, see the header comment). -/
inductive F32 where
  | nan
  | inf (positive : Bool)
  | val (x : ℚ)
  deriving DecidableEq

/-- Rust `f32::clamp(-1.0, 1.0)`: propagates NaN, sends `+∞` to `1.0`
and `-∞` to `-1.0`, clamps finite values. -/
def F32.clampUnitF : F32 → F32
  | .nan => .nan
  | .inf b => .val (if b then 1 else -1)
  | .val x => .val (clampUnit x)

/-- Multiplication by the positive finite constant `32767.0`. -/
def F32.scale32767 : F32 → F32
  | .nan => .nan
  | .inf b => .inf b
  | .val x => .val (x * 32767)

/-- Rust `as i16` on an f32: a total saturating cast — NaN becomes 0,
infinities and out-of-range values saturate to the i16 bounds, finite
values truncate toward zero. -/
def castI16 : F32 → ℤ
  | .nan => 0
  | .inf b => if b then 32767 else -32768
  | .val x => max (-32768) (min 32767 (truncQ x))

/-- The full quantization of capture.rs lines 264 and 284 on an
arbitrary f32 mixed value: `(mixed.clamp(-1.0, 1.0) * 32767.0) as i16`. -/
def quantizeF32 (m : F32) : ℤ := castI16 (F32.scale32767 (F32.clampUnitF m))

/-! ### Running-totals invariant of the writer loop -/

/-- Invariant tying the loop state to the totals delivered so far: the
emitted samples are the positional pairing of the two normalized
streams, and each queue holds exactly the unpaired tail of its stream. -/
def Inv (S M : List ℚ) (s : MixState) : Prop :=
  s.out = List.zipWith mixSample S M ∧
  s.sysBuf = S.drop (min S.length M.length) ∧
  s.micBuf = M.drop (min S.length M.length) ∧
  s.running = true

lemma zipWith_take_drop (f : ℚ → ℚ → ℚ) (X Y : List ℚ) (k : ℕ) :
    List.zipWith f X Y =
      List.zipWith f (X.take k) (Y.take k) ++ List.zipWith f (X.drop k) (Y.drop k) := by
  rw [← List.take_zipWith, ← List.drop_zipWith, List.take_append_drop]

lemma take_min_zipWith (f : ℚ → ℚ → ℚ) (S M c c' : List ℚ) :
    List.zipWith f ((S ++ c).take (min S.length M.length))
        ((M ++ c').take (min S.length M.length))
      = List.zipWith f S M := by
  rw [List.take_append_of_le_length (Nat.min_le_left _ _),
      List.take_append_of_le_length (Nat.min_le_right _ _),
      ← List.take_zipWith]
  exact List.take_of_length_le (le_of_eq (List.length_zipWith f S M))

lemma mixPass_append (S M c c' : List ℚ) (r : Bool) :
    mixPass ⟨(S ++ c).drop (min S.length M.length),
             (M ++ c').drop (min S.length M.length),
             List.zipWith mixSample S M, r⟩
      = ⟨(S ++ c).drop (min (S ++ c).length (M ++ c').length),
         (M ++ c').drop (min (S ++ c).length (M ++ c').length),
         List.zipWith mixSample (S ++ c) (M ++ c'), r⟩ := by
  have hS : min S.length M.length ≤ S.length := Nat.min_le_left _ _
  have hM : min S.length M.length ≤ M.length := Nat.min_le_right _ _
  simp only [mixPass, MixState.mk.injEq]
  refine ⟨?_, ?_, ?_, trivial⟩
  · rw [List.drop_drop, List.length_drop, List.length_drop,
        List.length_append, List.length_append]
    congr 1
    omega
  · rw [List.drop_drop, List.length_drop, List.length_drop,
        List.length_append, List.length_append]
    congr 1
    omega
  · rw [zipWith_take_drop mixSample (S ++ c) (M ++ c') (min S.length M.length),
        take_min_zipWith]

lemma inv_step (S M : List ℚ) (s : MixState) (m : Iter)
    (hs : Inv S M s) (h1 : m.1 ≠ SysPoll.stop) (h2 : m.2 ≠ MicPoll.stop) :
    Inv (S ++ sysChunkOf m.1) (M ++ micChunkOf m.2) (step s m) := by
  obtain ⟨sb, mb, o, r⟩ := s
  obtain ⟨ho, hsys, hmic, hrun⟩ := hs
  simp only at ho hsys hmic hrun
  subst ho hsys hmic hrun
  obtain ⟨m1, m2⟩ := m
  have hdS : ∀ c : List ℚ,
      S.drop (min S.length M.length) ++ c = (S ++ c).drop (min S.length M.length) :=
    fun c => (List.drop_append_of_le_length (Nat.min_le_left _ _)).symm
  have hdM : ∀ c' : List ℚ,
      M.drop (min S.length M.length) ++ c' = (M ++ c').drop (min S.length M.length) :=
    fun c' => (List.drop_append_of_le_length (Nat.min_le_right _ _)).symm
  cases m1 with
  | chunk d =>
    cases m2 with
    | chunk d' =>
      simp only [step, pollSys, pollMic, sysChunkOf, micChunkOf]
      rw [hdS, hdM, mixPass_append]
      exact ⟨rfl, rfl, rfl, rfl⟩
    | stop => exact absurd rfl h2
    | empty =>
      simp only [step, pollSys, pollMic, sysChunkOf, micChunkOf, List.append_nil]
      rw [hdS, show M.drop (min S.length M.length)
            = (M ++ ([] : List ℚ)).drop (min S.length M.length) by rw [List.append_nil],
          mixPass_append, List.append_nil]
      exact ⟨rfl, rfl, rfl, rfl⟩
  | stop => exact absurd rfl h1
  | empty =>
    cases m2 with
    | chunk d' =>
      simp only [step, pollSys, pollMic, sysChunkOf, micChunkOf, List.append_nil]
      rw [hdM, show S.drop (min S.length M.length)
            = (S ++ ([] : List ℚ)).drop (min S.length M.length) by rw [List.append_nil],
          mixPass_append, List.append_nil]
      exact ⟨rfl, rfl, rfl, rfl⟩
    | stop => exact absurd rfl h2
    | empty =>
      simp only [step, pollSys, pollMic, sysChunkOf, micChunkOf, List.append_nil]
      rw [show S.drop (min S.length M.length)
            = (S ++ ([] : List ℚ)).drop (min S.length M.length) by rw [List.append_nil],
          show M.drop (min S.length M.length)
            = (M ++ ([] : List ℚ)).drop (min S.length M.length) by rw [List.append_nil],
          mixPass_append, List.append_nil, List.append_nil]
      exact ⟨rfl, rfl, rfl, rfl⟩

lemma noStop_cons {m : Iter} {ms : List Iter} (h : noStop (m :: ms) = true) :
    m.1 ≠ SysPoll.stop ∧ m.2 ≠ MicPoll.stop ∧ noStop ms = true := by
  simp only [noStop, List.all_cons, Bool.and_eq_true] at h
  obtain ⟨⟨h1, h2⟩, h3⟩ := h
  refine ⟨?_, ?_, h3⟩
  · intro hc; rw [hc] at h1; simp at h1
  · intro hc; rw [hc] at h2; simp at h2

lemma inv_runLoop (ms : List Iter) (S M : List ℚ) (s : MixState)
    (hns : noStop ms = true) (hs : Inv S M s) :
    Inv (S ++ sysStream ms) (M ++ micStream ms) (runLoop s ms) := by
  induction ms generalizing S M s with
  | nil =>
    simpa only [runLoop, sysStream, micStream, List.append_nil] using hs
  | cons m ms ih =>
    obtain ⟨h1, h2, h3⟩ := noStop_cons hns
    have hrun : s.running = true := hs.2.2.2
    rw [runLoop, hrun, if_pos rfl]
    have hstep := inv_step S M s m hs h1 h2
    have := ih (S ++ sysChunkOf m.1) (M ++ micChunkOf m.2) (step s m) h3 hstep
    simpa only [sysStream, micStream, List.append_assoc] using this

lemma inv_init : Inv [] [] initState := ⟨rfl, rfl, rfl, rfl⟩

/-- After processing a stop-free delivery sequence, the writer state is
fully determined by the two normalized streams. -/
lemma loop_invariant (ms : List Iter) (h : noStop ms = true) :
    Inv (sysStream ms) (micStream ms) (runLoop initState ms) := by
  simpa only [List.nil_append] using inv_runLoop ms [] [] initState h inv_init

lemma mixPass_min (s : MixState) :
    min (mixPass s).sysBuf.length (mixPass s).micBuf.length = 0 := by
  simp only [mixPass, List.length_drop]
  omega

lemma runLoop_min (ms : List Iter) (s : MixState)
    (h : min s.sysBuf.length s.micBuf.length = 0) :
    min (runLoop s ms).sysBuf.length (runLoop s ms).micBuf.length = 0 := by
  induction ms generalizing s with
  | nil => exact h
  | cons m ms ih =>
    rw [runLoop]
    by_cases hr : s.running = true
    · rw [if_pos hr]
      exact ih (step s m) (mixPass_min _)
    · rw [if_neg hr]
      exact h

lemma runLoop_not_running (ms : List Iter) (s : MixState)
    (h : s.running = false) : runLoop s ms = s := by
  cases ms with
  | nil => rfl
  | cons m ms => rw [runLoop, h]; simp

lemma runLoop_append (ms ms' : List Iter) (s : MixState) :
    runLoop s (ms ++ ms') = runLoop (runLoop s ms) ms' := by
  induction ms generalizing s with
  | nil => rfl
  | cons m tail ih =>
    rw [List.cons_append, runLoop, runLoop]
    by_cases hr : s.running = true
    · rw [if_pos hr, if_pos hr, ih]
    · have hf : s.running = false := by
        revert hr; cases s.running <;> simp
      rw [if_neg hr, if_neg hr, runLoop_not_running _ _ hf]

/-- A `Stop` delivered after a stop-free sequence: the iteration that
sees `Stop` clears `running`, appends whatever the microphone delivered
in the same iteration, and still runs its mixing pass (the final pairing
pass); no buffered sample is dropped. -/
lemma runLoop_stop (ms : List Iter) (m2 : MicPoll) (h : noStop ms = true)
    (h2 : m2 ≠ MicPoll.stop) :
    runLoop initState (ms ++ [(SysPoll.stop, m2)])
      = ⟨(sysStream ms).drop
           (min (sysStream ms).length (micStream ms ++ micChunkOf m2).length),
         (micStream ms ++ micChunkOf m2).drop
           (min (sysStream ms).length (micStream ms ++ micChunkOf m2).length),
         List.zipWith mixSample (sysStream ms) (micStream ms ++ micChunkOf m2),
         false⟩ := by
  obtain ⟨ho, hsys, hmic, hrun⟩ := loop_invariant ms h
  rw [runLoop_append]
  set s0 := runLoop initState ms with hs0
  rw [runLoop, hrun, if_pos rfl, runLoop]
  obtain ⟨sb, mb, o, r⟩ := s0
  simp only at ho hsys hmic hrun
  subst ho hsys hmic hrun
  set S := sysStream ms
  set M := micStream ms
  cases m2 with
  | chunk d =>
    simp only [step, pollSys, pollMic, micChunkOf]
    rw [show S.drop (min S.length M.length)
          = (S ++ ([] : List ℚ)).drop (min S.length M.length) by rw [List.append_nil],
        show M.drop (min S.length M.length) ++ d
          = (M ++ d).drop (min S.length M.length) from
          (List.drop_append_of_le_length (Nat.min_le_right _ _)).symm,
        mixPass_append, List.append_nil]
  | stop => exact absurd rfl h2
  | empty =>
    simp only [step, pollSys, pollMic, micChunkOf, List.append_nil]
    rw [show S.drop (min S.length M.length)
          = (S ++ ([] : List ℚ)).drop (min S.length M.length) by rw [List.append_nil],
        show M.drop (min S.length M.length)
          = (M ++ ([] : List ℚ)).drop (min S.length M.length) by rw [List.append_nil],
        mixPass_append, List.append_nil, List.append_nil]

/-! ### getD helpers -/

lemma getD_append_len {α : Type} (A B : List α) (i : ℕ) (d : α) :
    (A ++ B).getD (A.length + i) d = B.getD i d := by
  simp only [List.getD_eq_getElem?_getD,
    List.getElem?_append_right (Nat.le_add_right _ _), Nat.add_sub_cancel_left]

lemma getD_zipWith_of_lt (f : ℚ → ℚ → ℚ) (X Y : List ℚ) (i : ℕ)
    (hx : i < X.length) (hy : i < Y.length) :
    (List.zipWith f X Y).getD i 0 = f (X.getD i 0) (Y.getD i 0) := by
  simp [List.getD_eq_getElem?_getD, List.getElem?_zipWith,
    List.getElem?_eq_getElem hx, List.getElem?_eq_getElem hy]

lemma getD_map_quantize (B : List ℚ) (i : ℕ) (h : i < B.length) :
    (B.map quantizeI16).getD i 0 = quantizeI16 (B.getD i 0) := by
  simp [List.getD_eq_getElem?_getD, List.getElem?_map, List.getElem?_eq_getElem h]

lemma getD_drop (S : List ℚ) (k j : ℕ) :
    (S.drop k).getD j 0 = S.getD (k + j) 0 := by
  simp [List.getD_eq_getElem?_getD, List.getElem?_drop]

/-! ### Drain characterization -/

lemma drain_length (s : MixState) (S M : List ℚ)
    (ho : s.out = List.zipWith mixSample S M)
    (hs : s.sysBuf = S.drop (min S.length M.length))
    (hm : s.micBuf = M.drop (min S.length M.length)) :
    (drainPhase s).out.length = max S.length M.length := by
  simp only [drainPhase, List.length_append, ho, hs, hm, List.length_map,
    List.length_range, List.length_zipWith, List.length_drop]
  omega

lemma drain_getD (s : MixState) (S M : List ℚ)
    (ho : s.out = List.zipWith mixSample S M)
    (hs : s.sysBuf = S.drop (min S.length M.length))
    (hm : s.micBuf = M.drop (min S.length M.length))
    (i : ℕ) (hi : i < max S.length M.length) :
    (drainPhase s).out.getD i 0 = mixSample (S.getD i 0) (M.getD i 0) := by
  have hlo : s.out.length = min S.length M.length := by
    rw [ho, List.length_zipWith]
  rcases Nat.lt_or_ge i (min S.length M.length) with hik | hik
  · -- position inside the already-emitted pairs
    have h1 : i < s.out.length := by omega
    have hL : (drainPhase s).out.getD i 0 = s.out.getD i 0 := by
      simp only [drainPhase, List.getD_eq_getElem?_getD, List.getElem?_append_left h1]
    rw [hL, ho, getD_zipWith_of_lt mixSample S M i (by omega) (by omega)]
  · -- position inside the drain remainder
    have h1 : s.out.length ≤ i := by omega
    have hrange : i - s.out.length < max s.sysBuf.length s.micBuf.length := by
      rw [hs, hm]
      simp only [List.length_drop]
      omega
    have hL : (drainPhase s).out.getD i 0
        = mixSample (s.sysBuf.getD (i - s.out.length) 0)
            (s.micBuf.getD (i - s.out.length) 0) := by
      simp only [drainPhase, List.getD_eq_getElem?_getD,
        List.getElem?_append_right h1, List.getElem?_map,
        List.getElem?_range hrange, Option.map_some', Option.getD_some]
    rw [hL, hs, hm, getD_drop, getD_drop]
    have hadd : min S.length M.length + (i - s.out.length) = i := by omega
    rw [hadd]

lemma map_range_getD (f : ℚ → ℚ) (S : List ℚ) :
    (List.range S.length).map (fun i => f (S.getD i 0)) = S.map f := by
  induction S with
  | nil => simp
  | cons a l ih =>
    rw [List.length_cons, List.range_succ_eq_map, List.map_cons, List.map_map]
    have hc : ((fun i => f ((a :: l).getD i 0)) ∘ Nat.succ)
        = fun i => f (l.getD i 0) := by
      funext i
      simp [List.getD_cons_succ]
    rw [hc, ih, List.map_cons, List.getD_cons_zero]

lemma drain_mic_silent (s : MixState) (S : List ℚ)
    (ho : s.out = []) (hs : s.sysBuf = S) (hm : s.micBuf = []) :
    (drainPhase s).out = S.map (fun v => v * (1/2)) := by
  simp only [drainPhase, ho, hs, hm, List.length_nil, Nat.max_zero,
    List.nil_append, List.getD_nil]
  have hfun : (fun i => mixSample (S.getD i 0) 0)
      = fun i => (S.getD i 0) * (1/2) := by
    funext i
    simp [mixSample]
  rw [hfun, map_range_getD (fun v => v * (1/2)) S]

/-! ### Quantization bounds -/

lemma clampUnit_mem (x : ℚ) : -1 ≤ clampUnit x ∧ clampUnit x ≤ 1 := by
  unfold clampUnit
  exact ⟨le_max_left _ _, max_le (by norm_num) (min_le_left _ _)⟩

lemma truncQ_bounds (y : ℚ) (h1 : -32767 ≤ y) (h2 : y ≤ 32767) :
    -32767 ≤ truncQ y ∧ truncQ y ≤ 32767 := by
  unfold truncQ
  split_ifs with h
  · have hup : ⌊y⌋ ≤ ⌊(32767:ℚ)⌋ := Int.floor_le_floor h2
    have hdn : (0:ℤ) ≤ ⌊y⌋ := Int.le_floor.mpr (by exact_mod_cast h)
    have : ⌊(32767:ℚ)⌋ = 32767 := by norm_num
    omega
  · push_neg at h
    have hdn : ⌈(-32767:ℚ)⌉ ≤ ⌈y⌉ := Int.ceil_le_ceil h1
    have hup : ⌈y⌉ ≤ ⌈(0:ℚ)⌉ := Int.ceil_le_ceil (le_of_lt h)
    have h0 : ⌈(0:ℚ)⌉ = 0 := by norm_num
    have hn : ⌈(-32767:ℚ)⌉ = -32767 := by
      rw [show ((-32767:ℚ)) = ((-32767:ℤ):ℚ) by norm_num, Int.ceil_intCast]
    omega

lemma quantizeI16_bounds (x : ℚ) :
    -32767 ≤ quantizeI16 x ∧ quantizeI16 x ≤ 32767 := by
  have hc := clampUnit_mem x
  apply truncQ_bounds
  · have := mul_le_mul_of_nonneg_right hc.1 (by norm_num : (0:ℚ) ≤ 32767)
    linarith
  · have := mul_le_mul_of_nonneg_right hc.2 (by norm_num : (0:ℚ) ≤ 32767)
    linarith

lemma quantizeF32_val (x : ℚ) : quantizeF32 (F32.val x) = quantizeI16 x := by
  have hb := quantizeI16_bounds x
  rw [quantizeI16] at hb
  simp only [quantizeF32, F32.clampUnitF, F32.scale32767, castI16, quantizeI16]
  rw [min_eq_right hb.2, max_eq_right (by omega : (-32768:ℤ) ≤ truncQ (clampUnit x * 32767))]

lemma truncQ_intCast (z : ℤ) : truncQ ((z:ℚ)) = z := by
  unfold truncQ
  split_ifs with h
  · exact_mod_cast Int.floor_intCast z
  · exact_mod_cast Int.ceil_intCast z

lemma quantizeF32_range (m : F32) :
    -32767 ≤ quantizeF32 m ∧ quantizeF32 m ≤ 32767 := by
  cases m with
  | nan => constructor <;> norm_num [quantizeF32, F32.clampUnitF, F32.scale32767, castI16]
  | inf b =>
    cases b with
    | false =>
      simp only [quantizeF32, F32.clampUnitF, F32.scale32767, castI16,
        Bool.false_eq_true, if_false]
      rw [show ((-1:ℚ) * 32767) = ((-32767:ℤ):ℚ) by norm_num, truncQ_intCast]
      norm_num
    | true =>
      simp only [quantizeF32, F32.clampUnitF, F32.scale32767, castI16, if_true]
      rw [show ((1:ℚ) * 32767) = ((32767:ℤ):ℚ) by norm_num, truncQ_intCast]
      norm_num
  | val x =>
    rw [quantizeF32_val]
    exact quantizeI16_bounds x

/-! ### Channel Normalizer lemmas -/

lemma mix_to_mono_zero_channels (data : List ℚ) : mix_to_mono data 0 = [] := by
  rw [mix_to_mono]
  simp

lemma mix_to_mono_length (data : List ℚ) (n : ℕ) (hn : 1 ≤ n) :
    (mix_to_mono data n).length = data.length / n := by
  induction data, n using mix_to_mono.induct with
  | case1 data => omega
  | case2 data n h hlt =>
    rw [mix_to_mono, if_neg h, if_pos hlt, List.length_nil,
      Nat.div_eq_of_lt hlt]
  | case3 data n h hlt ih =>
    push_neg at hlt
    rw [mix_to_mono, if_neg h, if_neg (by omega), List.length_cons, ih hn,
      List.length_drop]
    rw [Nat.div_eq_sub_div (by omega) hlt]

lemma mix_to_mono_getD (data : List ℚ) (n : ℕ) (hn : 1 ≤ n) (i : ℕ)
    (hi : i < data.length / n) :
    (mix_to_mono data n).getD i 0 = ((data.drop (n * i)).take n).sum / n := by
  revert hn i hi
  induction data, n using mix_to_mono.induct with
  | case1 data =>
    intro hn
    omega
  | case2 data n h hlt =>
    intro hn i hi
    rw [Nat.div_eq_of_lt hlt] at hi
    omega
  | case3 data n h hlt ih =>
    intro hn i hi
    push_neg at hlt
    rw [mix_to_mono, if_neg h, if_neg (by omega)]
    cases i with
    | zero =>
      rw [List.getD_cons_zero, Nat.mul_zero, List.drop_zero]
    | succ i =>
      rw [List.getD_cons_succ]
      have hdiv : data.length / n = (data.length - n) / n + 1 :=
        Nat.div_eq_sub_div (by omega) hlt
      have hi' : i < (data.drop n).length / n := by
        rw [List.length_drop]
        omega
      rw [ih hn i hi', List.drop_drop]
      have hmul : n + n * i = n * (i + 1) := by ring
      rw [hmul]

lemma mix_to_mono_one (data : List ℚ) : mix_to_mono data 1 = data := by
  induction data with
  | nil =>
    rw [mix_to_mono]
    simp
  | cons a l ih =>
    rw [mix_to_mono]
    simp [ih]

lemma normalizeSys_eq_mix_to_mono (data : List ℚ) :
    normalizeSys data = mix_to_mono data 2 := by
  induction data using normalizeSys.induct with
  | case1 a b rest ih =>
    rw [normalizeSys, mix_to_mono]
    simp only [List.length_cons, Nat.cast_ofNat]
    rw [if_neg (by omega), if_neg (by omega)]
    simp only [List.take_succ_cons, List.take_zero, List.sum_cons, List.sum_nil,
      List.drop_succ_cons, List.drop_zero]
    congr 1
    ring
  | case2 x h =>
    cases x with
    | nil =>
      rw [show normalizeSys [] = [] from rfl, mix_to_mono]
      simp
    | cons a t =>
      cases t with
      | nil =>
        rw [show normalizeSys [a] = [] from rfl, mix_to_mono]
        simp
      | cons b r => exact (h a b r rfl).elim

/-! ### Claim theorems -/

/-- C1: for every stop-free sequence of interleaved SystemAudio and
Microphone chunk deliveries followed by a Stop, the number of mixed
samples written to the sink before the drain phase equals the minimum of
the two normalized delivered totals, and the number written once the
drain phase completes equals their maximum. -/
theorem mixed_sample_counts (ms : List Iter) (h : noStop ms = true) :
    (writtenSamples (runLoop initState
        (ms ++ [(SysPoll.stop, MicPoll.empty)]))).length
      = min (sysStream ms).length (micStream ms).length
    ∧ (writtenSamples (drainPhase (runLoop initState
        (ms ++ [(SysPoll.stop, MicPoll.empty)])))).length
      = max (sysStream ms).length (micStream ms).length := by
  have h2 : MicPoll.empty ≠ MicPoll.stop := fun hc => MicPoll.noConfusion hc
  have hr := runLoop_stop ms MicPoll.empty h h2
  simp only [micChunkOf, List.append_nil] at hr
  constructor
  · rw [hr]
    simp [writtenSamples, List.length_zipWith]
  · rw [hr, writtenSamples, List.length_map]
    exact drain_length _ (sysStream ms) (micStream ms) rfl rfl rfl

theorem mixed_sample_counts_witness :
    (writtenSamples (runLoop initState
        ([(SysPoll.chunk [1,1], MicPoll.chunk [0,0,1])]
          ++ [(SysPoll.stop, MicPoll.empty)]))).length
      = min (sysStream [(SysPoll.chunk [1,1], MicPoll.chunk [0,0,1])]).length
          (micStream [(SysPoll.chunk [1,1], MicPoll.chunk [0,0,1])]).length
    ∧ (writtenSamples (drainPhase (runLoop initState
        ([(SysPoll.chunk [1,1], MicPoll.chunk [0,0,1])]
          ++ [(SysPoll.stop, MicPoll.empty)])))).length
      = max (sysStream [(SysPoll.chunk [1,1], MicPoll.chunk [0,0,1])]).length
          (micStream [(SysPoll.chunk [1,1], MicPoll.chunk [0,0,1])]).length :=
  mixed_sample_counts [(SysPoll.chunk [1,1], MicPoll.chunk [0,0,1])] (by decide)

/-- C2: for every channel count N ≥ 1 and interleaved buffer, the
Channel Normalizer output has length ⌊len/N⌋ and its i-th element is the
arithmetic mean (sum divided by N) of the N samples of frame i; N = 0 is
a no-op; the in-source N = 2 SystemAudio path and the N = 1 microphone
pass-through agree with it. -/
theorem channel_normalizer_mean (data : List ℚ) (n : ℕ) (hn : 1 ≤ n)
    (i : ℕ) :
    (mix_to_mono data n).length = data.length / n
    ∧ (i < data.length / n →
        (mix_to_mono data n).getD i 0 = ((data.drop (n * i)).take n).sum / n)
    ∧ mix_to_mono data 0 = []
    ∧ normalizeSys data = mix_to_mono data 2
    ∧ mix_to_mono data 1 = data :=
  ⟨mix_to_mono_length data n hn, mix_to_mono_getD data n hn i,
   mix_to_mono_zero_channels data, normalizeSys_eq_mix_to_mono data,
   mix_to_mono_one data⟩

theorem channel_normalizer_mean_witness :
    ((mix_to_mono [1,2,3,4,5] 2).length = [1,2,3,4,5].length / 2
    ∧ (mix_to_mono [1,2,3,4,5] 2).getD 1 0
        = (([1,2,3,4,5].drop (2 * 1)).take 2).sum / 2
    ∧ mix_to_mono [1,2,3,4,5] 0 = []
    ∧ normalizeSys [1,2,3,4,5] = mix_to_mono [1,2,3,4,5] 2
    ∧ mix_to_mono [1,2,3,4,5] 1 = [1,2,3,4,5]
    ∧ (mix_to_mono [1] 2).length = [1].length / 2) :=
  ⟨(channel_normalizer_mean [1,2,3,4,5] 2 (by decide) 1).1,
   (channel_normalizer_mean [1,2,3,4,5] 2 (by decide) 1).2.1 (by decide),
   (channel_normalizer_mean [1,2,3,4,5] 2 (by decide) 1).2.2.1,
   (channel_normalizer_mean [1,2,3,4,5] 2 (by decide) 1).2.2.2.1,
   (channel_normalizer_mean [1,2,3,4,5] 2 (by decide) 1).2.2.2.2,
   (channel_normalizer_mean [1] 2 (by decide) 0).1⟩

/-- C3: in a mixing pass with n = min(len sys, len mic) > 0, the i-th
newly emitted sample (i < n) is the mix of the i-th oldest unconsumed
sample of each queue, the value written to the sink is its clamped
quantization, and exactly the first n elements are removed from both
queues — FIFO positional pairing with no reordering or lookahead. -/
theorem mixing_pass_fifo (s : MixState) (i : ℕ)
    (hi : i < min s.sysBuf.length s.micBuf.length) :
    (mixPass s).out.length = s.out.length + min s.sysBuf.length s.micBuf.length
    ∧ (mixPass s).out.getD (s.out.length + i) 0
        = mixSample (s.sysBuf.getD i 0) (s.micBuf.getD i 0)
    ∧ (writtenSamples (mixPass s)).getD (s.out.length + i) 0
        = quantizeI16 (mixSample (s.sysBuf.getD i 0) (s.micBuf.getD i 0))
    ∧ (mixPass s).sysBuf = s.sysBuf.drop (min s.sysBuf.length s.micBuf.length)
    ∧ (mixPass s).micBuf = s.micBuf.drop (min s.sysBuf.length s.micBuf.length) := by
  refine ⟨?_, ?_, ?_, rfl, rfl⟩
  · simp [mixPass, List.length_append, List.length_zipWith]
  · show (s.out ++ List.zipWith mixSample s.sysBuf s.micBuf).getD
        (s.out.length + i) 0 = _
    rw [getD_append_len,
      getD_zipWith_of_lt mixSample _ _ i (by omega) (by omega)]
  · show ((s.out ++ List.zipWith mixSample s.sysBuf s.micBuf).map
        quantizeI16).getD (s.out.length + i) 0 = _
    rw [List.map_append,
      show s.out.length + i = (s.out.map quantizeI16).length + i by
        rw [List.length_map],
      getD_append_len,
      getD_map_quantize _ i (by rw [List.length_zipWith]; omega),
      getD_zipWith_of_lt mixSample _ _ i (by omega) (by omega)]

theorem mixing_pass_fifo_witness :
    ((mixPass ⟨[1,2],[3],[],true⟩).out.length
        = (MixState.out ⟨[1,2],[3],[],true⟩).length
          + min (MixState.sysBuf ⟨[1,2],[3],[],true⟩).length
              (MixState.micBuf ⟨[1,2],[3],[],true⟩).length
    ∧ (mixPass ⟨[1,2],[3],[],true⟩).out.getD
        ((MixState.out ⟨[1,2],[3],[],true⟩).length + 0) 0
        = mixSample ((MixState.sysBuf ⟨[1,2],[3],[],true⟩).getD 0 0)
            ((MixState.micBuf ⟨[1,2],[3],[],true⟩).getD 0 0)
    ∧ (writtenSamples (mixPass ⟨[1,2],[3],[],true⟩)).getD
        ((MixState.out ⟨[1,2],[3],[],true⟩).length + 0) 0
        = quantizeI16 (mixSample ((MixState.sysBuf ⟨[1,2],[3],[],true⟩).getD 0 0)
            ((MixState.micBuf ⟨[1,2],[3],[],true⟩).getD 0 0))
    ∧ (mixPass ⟨[1,2],[3],[],true⟩).sysBuf
        = (MixState.sysBuf ⟨[1,2],[3],[],true⟩).drop
            (min (MixState.sysBuf ⟨[1,2],[3],[],true⟩).length
              (MixState.micBuf ⟨[1,2],[3],[],true⟩).length)
    ∧ (mixPass ⟨[1,2],[3],[],true⟩).micBuf
        = (MixState.micBuf ⟨[1,2],[3],[],true⟩).drop
            (min (MixState.sysBuf ⟨[1,2],[3],[],true⟩).length
              (MixState.micBuf ⟨[1,2],[3],[],true⟩).length)) :=
  mixing_pass_fifo ⟨[1,2],[3],[],true⟩ 0 (by decide)

/-- C4 counterexample: a SystemAudio chunk of odd length ([3] here)
delivers one captured sample that channel normalization drops before it
ever reaches a queue, so the session's complete output — and the full
set of attempted sink writes — is empty even though a captured sample
was delivered: "no captured sample delivered during the session is ever
discarded" is false for raw delivered samples. -/
theorem drain_discard_cx :
    (drainPhase (runLoop initState
        [(SysPoll.chunk [3], MicPoll.empty), (SysPoll.stop, MicPoll.empty)])).out = []
    ∧ (runWriter (fun _ => false)
        [(SysPoll.chunk [3], MicPoll.empty), (SysPoll.stop, MicPoll.empty)]).written
      = [] := by
  decide

/-- C4 (amended): once running is cleared by a Stop, the iteration that
saw the Stop still runs one final pairing pass, the drain phase pads the
shorter remaining queue with zero-valued samples up to the longer
queue's length (position i of the final output mixes the i-th sample of
each normalized stream, defaulting to 0), the sink is finalized exactly
once, and Finished is then emitted; no sample that entered a queue
(i.e., that survived channel normalization) is ever discarded. -/
theorem drain_on_stop (ms : List Iter) (d : List ℚ) (fail : ℕ → Bool)
    (i : ℕ) (h : noStop ms = true)
    (hi : i < max (sysStream ms).length (micStream ms ++ d).length) :
    (runLoop initState (ms ++ [(SysPoll.stop, MicPoll.chunk d)])).running = false
    ∧ (runLoop initState (ms ++ [(SysPoll.stop, MicPoll.chunk d)])).out
        = List.zipWith mixSample (sysStream ms) (micStream ms ++ d)
    ∧ (drainPhase (runLoop initState
        (ms ++ [(SysPoll.stop, MicPoll.chunk d)]))).out.length
        = max (sysStream ms).length (micStream ms ++ d).length
    ∧ (drainPhase (runLoop initState
        (ms ++ [(SysPoll.stop, MicPoll.chunk d)]))).out.getD i 0
        = mixSample ((sysStream ms).getD i 0) ((micStream ms ++ d).getD i 0)
    ∧ (runWriter fail (ms ++ [(SysPoll.stop, MicPoll.chunk d)])).finalizeCount = 1
    ∧ (runWriter fail (ms ++ [(SysPoll.stop, MicPoll.chunk d)])).event
        = Event.Finished := by
  have h2 : MicPoll.chunk d ≠ MicPoll.stop := fun hc => MicPoll.noConfusion hc
  have hr := runLoop_stop ms (MicPoll.chunk d) h h2
  simp only [micChunkOf] at hr
  refine ⟨by rw [hr], by rw [hr], ?_, ?_, rfl, rfl⟩
  · rw [hr]
    exact drain_length _ (sysStream ms) (micStream ms ++ d) rfl rfl rfl
  · rw [hr]
    exact drain_getD _ (sysStream ms) (micStream ms ++ d) rfl rfl rfl i hi

theorem drain_on_stop_witness :
    ((runLoop initState ([(SysPoll.chunk [1,1], MicPoll.empty)]
        ++ [(SysPoll.stop, MicPoll.chunk [0])])).running = false
    ∧ (runLoop initState ([(SysPoll.chunk [1,1], MicPoll.empty)]
        ++ [(SysPoll.stop, MicPoll.chunk [0])])).out
        = List.zipWith mixSample (sysStream [(SysPoll.chunk [1,1], MicPoll.empty)])
            (micStream [(SysPoll.chunk [1,1], MicPoll.empty)] ++ [0])
    ∧ (drainPhase (runLoop initState ([(SysPoll.chunk [1,1], MicPoll.empty)]
        ++ [(SysPoll.stop, MicPoll.chunk [0])]))).out.length
        = max (sysStream [(SysPoll.chunk [1,1], MicPoll.empty)]).length
            (micStream [(SysPoll.chunk [1,1], MicPoll.empty)] ++ [0]).length
    ∧ (drainPhase (runLoop initState ([(SysPoll.chunk [1,1], MicPoll.empty)]
        ++ [(SysPoll.stop, MicPoll.chunk [0])]))).out.getD 0 0
        = mixSample ((sysStream [(SysPoll.chunk [1,1], MicPoll.empty)]).getD 0 0)
            ((micStream [(SysPoll.chunk [1,1], MicPoll.empty)] ++ [0]).getD 0 0)
    ∧ (runWriter (fun _ => true) ([(SysPoll.chunk [1,1], MicPoll.empty)]
        ++ [(SysPoll.stop, MicPoll.chunk [0])])).finalizeCount = 1
    ∧ (runWriter (fun _ => true) ([(SysPoll.chunk [1,1], MicPoll.empty)]
        ++ [(SysPoll.stop, MicPoll.chunk [0])])).event = Event.Finished) :=
  drain_on_stop [(SysPoll.chunk [1,1], MicPoll.empty)] [0] (fun _ => true) 0
    (by decide) (by decide)

/-- C5 counterexample: in the spec's scenario (SystemAudio chunks
[1.0,1.0] and [0.0], Microphone chunk [0.0,0.0,1.0], then stop) the
complete mixed output is not [0.5, 0.5, 0.5]: the stereo pair [1.0,1.0]
normalizes to the single mono sample 1.0 and the odd-length chunk [0.0]
is dropped by chunks_exact(2), so the totals are 1 and 3, not 3 and 3. -/
theorem three_sample_scenario_cx :
    (drainPhase (runLoop initState
        [(SysPoll.chunk [1,1], MicPoll.chunk [0,0,1]),
         (SysPoll.chunk [0], MicPoll.empty),
         (SysPoll.stop, MicPoll.empty)])).out ≠ [1/2, 1/2, 1/2] := by
  norm_num [runLoop, step, pollSys, pollMic, mixPass, drainPhase, initState,
    normalizeSys, mixSample, List.range_succ]

/-- C5 (amended): in that scenario the complete mixed output is exactly
[0.5, 0.0, 0.5] — one sample paired during mixing ((1.0+0.0)/2) and two
drain-padded samples ((0.0+0.0)/2 and (0.0+1.0)/2), because SystemAudio
normalizes to the single sample [1.0] (the odd-length chunk [0.0] loses
its sample to chunks_exact(2)) while the Microphone total is 3. -/
theorem three_sample_scenario :
    (runLoop initState
        [(SysPoll.chunk [1,1], MicPoll.chunk [0,0,1]),
         (SysPoll.chunk [0], MicPoll.empty),
         (SysPoll.stop, MicPoll.empty)]).out = [1/2]
    ∧ (drainPhase (runLoop initState
        [(SysPoll.chunk [1,1], MicPoll.chunk [0,0,1]),
         (SysPoll.chunk [0], MicPoll.empty),
         (SysPoll.stop, MicPoll.empty)])).out = [1/2, 0, 1/2] := by
  constructor <;>
    norm_num [runLoop, step, pollSys, pollMic, mixPass, drainPhase, initState,
      normalizeSys, mixSample, List.range_succ]

/-- C6 counterexample: SystemAudio delivering the single chunk [0.5]
with a silent microphone produces the empty output, not [0.25]: the
odd-length chunk is dropped whole by chunks_exact(2), so nothing ever
enters the system queue. -/
theorem silent_mic_scenario_cx :
    (drainPhase (runLoop initState
        [(SysPoll.chunk [1/2], MicPoll.empty),
         (SysPoll.stop, MicPoll.empty)])).out = []
    ∧ (drainPhase (runLoop initState
        [(SysPoll.chunk [1/2], MicPoll.empty),
         (SysPoll.stop, MicPoll.empty)])).out ≠ [1/4] := by
  decide

/-- C6 (amended): if the microphone delivers zero chunks before stop,
the drain pads it entirely with silence and every normalized SystemAudio
sample is emitted at exactly half its amplitude; the particular delivery
[0.5] is an odd-length stereo chunk that normalization discards (output
[]), while the full stereo frame [0.5, 0.5] yields [0.25]. -/
theorem silent_mic_halving (ms : List Iter) (h : noStop ms = true)
    (hM : micStream ms = []) :
    (drainPhase (runLoop initState (ms ++ [(SysPoll.stop, MicPoll.empty)]))).out
      = (sysStream ms).map (fun v => v * (1/2)) := by
  have h2 : MicPoll.empty ≠ MicPoll.stop := fun hc => MicPoll.noConfusion hc
  have hr := runLoop_stop ms MicPoll.empty h h2
  simp only [micChunkOf, List.append_nil, hM] at hr
  rw [hr]
  apply drain_mic_silent _ (sysStream ms)
  · simp
  · simp
  · simp

theorem silent_mic_halving_witness :
    (drainPhase (runLoop initState
        ([(SysPoll.chunk [1/2, 1/2], MicPoll.empty)]
          ++ [(SysPoll.stop, MicPoll.empty)]))).out
      = (sysStream [(SysPoll.chunk [1/2, 1/2], MicPoll.empty)]).map
          (fun v => v * (1/2)) :=
  silent_mic_halving [(SysPoll.chunk [1/2, 1/2], MicPoll.empty)]
    (by decide) (by decide)

/-- C7 counterexample: `stop_record` called on a freshly constructed
capture (no prior start) returns `Ok(())` and leaves the state exactly
as it was — it is silently ignored, not reported as a LifecycleMisuse
error; a second `stop_record` after a start/stop pair also returns
`Ok(())`. -/
theorem stop_without_start_cx :
    stop_record newCapture = (newCapture, Except.ok ())
    ∧ (stop_record (stop_record (start_record newCapture)).1).2
        = Except.ok () :=
  ⟨rfl, rfl⟩

/-- C7 (amended): `stop_record` before `start_record`, or twice, is
silently accepted: it always returns `Ok(())` (the code defines no
LifecycleMisuse error and performs no lifecycle check), never creates a
sink, and on a fresh capture it has no effect at all. -/
theorem stop_record_silent (s : CaptureState) :
    (stop_record s).2 = Except.ok ()
    ∧ (stop_record s).1.sinkCreated = s.sinkCreated
    ∧ (stop_record newCapture).1 = newCapture :=
  ⟨rfl, rfl, rfl⟩

/-- C8 counterexample: in a session where every sink write fails, the
writer still attempts all three samples (no early abort), keeps none,
and the completion signal is Finished — not an Error variant (the Event
type has none). -/
theorem sink_error_signal_cx :
    (runWriter (fun _ => true)
        [(SysPoll.chunk [1,1], MicPoll.chunk [0,0,1]),
         (SysPoll.stop, MicPoll.empty)]).kept = []
    ∧ (runWriter (fun _ => true)
        [(SysPoll.chunk [1,1], MicPoll.chunk [0,0,1]),
         (SysPoll.stop, MicPoll.empty)]).written.length = 3
    ∧ (runWriter (fun _ => true)
        [(SysPoll.chunk [1,1], MicPoll.chunk [0,0,1]),
         (SysPoll.stop, MicPoll.empty)]).event = Event.Finished := by
  decide

/-- C8 (amended): every `write_sample` result is discarded, so sink
write failures never abort the mixer loop — the attempted write sequence
is independent of the failure pattern, the sink is finalized once, and
the completion signal is always Finished; the Event type has no Error
variant to carry a failure. -/
theorem sink_error_ignored (fail : ℕ → Bool) (ms : List Iter) (e : Event) :
    (runWriter fail ms).event = Event.Finished
    ∧ (runWriter fail ms).finalizeCount = 1
    ∧ (runWriter fail ms).written
        = writtenSamples (drainPhase (runLoop initState ms))
    ∧ e = Event.Finished := by
  refine ⟨rfl, rfl, rfl, ?_⟩
  cases e
  rfl

/-- C9: after any sequence of loop iterations, at least one of the two
sample queues is empty — min(len sys_buffer, len mic_buffer) = 0 holds
at every iteration boundary, so unpaired samples never accumulate on
both sides simultaneously. -/
theorem queue_exclusion (ms : List Iter) :
    min (runLoop initState ms).sysBuf.length
        (runLoop initState ms).micBuf.length = 0 :=
  runLoop_min ms initState rfl

/-- C10: the quantization `(mixed.clamp(-1.0, 1.0) * 32767.0) as i16` is
total on all f32 inputs including NaN and infinities and always lands in
[-32767, 32767]; on finite inputs the saturating cast never engages and
it agrees with the rational quantization; hence every sample value
written to the sink during mixing and drain lies in [-32767, 32767]. -/
theorem quantization_total_and_range (m : F32) (x : ℚ) (fail : ℕ → Bool)
    (ms : List Iter) (z : ℤ) (hz : z ∈ (runWriter fail ms).written) :
    (-32767 ≤ quantizeF32 m ∧ quantizeF32 m ≤ 32767)
    ∧ quantizeF32 (F32.val x) = quantizeI16 x
    ∧ (-32767 ≤ z ∧ z ≤ 32767) := by
  refine ⟨quantizeF32_range m, quantizeF32_val x, ?_⟩
  have hz' : z ∈ (drainPhase (runLoop initState ms)).out.map quantizeI16 := hz
  obtain ⟨v, hv, hq⟩ := List.mem_map.mp hz'
  rw [← hq]
  exact quantizeI16_bounds v

theorem quantization_total_and_range_witness :
    ((-32767 ≤ quantizeF32 F32.nan ∧ quantizeF32 F32.nan ≤ 32767)
    ∧ quantizeF32 (F32.val (1/2)) = quantizeI16 (1/2)
    ∧ (-32767 ≤ (16383:ℤ) ∧ (16383:ℤ) ≤ 32767)) :=
  quantization_total_and_range F32.nan (1/2) (fun _ => true)
    [(SysPoll.chunk [1,1], MicPoll.chunk [0,0,1]),
     (SysPoll.stop, MicPoll.empty)] 16383
    (by norm_num [runWriter, writtenSamples, runLoop, step, pollSys, pollMic,
      mixPass, drainPhase, initState, normalizeSys, mixSample, List.range_succ,
      quantizeI16, clampUnit, truncQ])

end Summia
